import Mathlib

/-!
Shallow embedding of the resilient client core of the Alchemyst AI SDK
integration package: the bounded TTL cache (`LRUCache` in `schemas.ts`),
the error classification and retry machinery (`normalize.ts`), and the
client executor (`AlchemystClientImpl` in `schemas.ts`).

Time is passed explicitly (the source reads `Date.now()`); JavaScript
numbers used as counters are modelled as `Nat`, latencies and derived
rates as `ℚ`.  JavaScript `Map` is modelled as an insertion-ordered
association list, matching the iteration-order guarantees the source
relies on for eviction.
-/

/- ------------------------------------------------------------------
   String helpers: JavaScript `message.toLowerCase()` and
   `message.includes(sub)` (substring containment), modelled
   character-wise so that concrete instances evaluate.
   ------------------------------------------------------------------ -/

def startsWithL : List Char → List Char → Bool
  | _, [] => true
  | [], _ :: _ => false
  | a :: as, b :: bs => a == b && startsWithL as bs

def includesAux (sub : List Char) : List Char → Bool
  | [] => sub.isEmpty
  | c :: cs => startsWithL (c :: cs) sub || includesAux sub cs

/-- JavaScript `s.includes(sub)`. -/
def strIncludes (s sub : String) : Bool := includesAux sub.data s.data

/-- JavaScript `s.toLowerCase()` (character-wise, ASCII). -/
def strToLower (s : String) : String := String.mk (s.data.map Char.toLower)

/- ------------------------------------------------------------------
   LRUCache<T>  (schemas.ts).

   `cache` models the JavaScript `Map<string, {value, timestamp, hits}>`
   as an insertion-ordered association list: `Map.set` on a fresh key
   appends, on an existing key updates in place; `Map.delete` removes
   the binding; `Map.keys().next().value` is the head key.
   ------------------------------------------------------------------ -/

structure CacheEntry (V : Type) where
  value : V
  timestamp : Nat
  hits : Nat
deriving Repr, DecidableEq

structure LRUCache (V : Type) where
  cache : List (String × CacheEntry V)
  maxSize : Nat
  ttl : Nat
  statsHits : Nat
  statsMisses : Nat
  statsEvictions : Nat
deriving Repr, DecidableEq

/-- The `LRUCache` constructor: `ttl = ttlSeconds * 1000`, empty map,
zeroed stats. -/
def LRUCache.init (V : Type) (maxSize ttlSeconds : Nat) : LRUCache V :=
  ⟨[], maxSize, ttlSeconds * 1000, 0, 0, 0⟩

/-- `Map.set`: update in place if the key is present, else append. -/
def mapSet {V : Type} (k : String) (e : CacheEntry V) :
    List (String × CacheEntry V) → List (String × CacheEntry V)
  | [] => [(k, e)]
  | p :: rest => if p.1 = k then (k, e) :: rest else p :: mapSet k e rest

/-- `private cleanup()`: delete every entry with `now - timestamp > ttl`. -/
def LRUCache.cleanup {V : Type} (now : Nat) (c : LRUCache V) : LRUCache V :=
  { c with cache := c.cache.filter (fun p => !(decide (now - p.2.timestamp > c.ttl))) }

/-- `get(key)`: miss on absent key; miss and delete on a stale entry;
otherwise bump the entry hit count and the stats hit counter and
return the value.  Returns the value alongside the updated cache. -/
def LRUCache.get {V : Type} (now : Nat) (k : String) (c : LRUCache V) :
    Option V × LRUCache V :=
  match c.cache.find? (fun p => p.1 == k) with
  | none => (none, { c with statsMisses := c.statsMisses + 1 })
  | some item =>
    if now - item.2.timestamp > c.ttl then
      (none, { c with cache := c.cache.filter (fun p => !(p.1 == k)),
                      statsMisses := c.statsMisses + 1 })
    else
      (some item.2.value,
       { c with cache := c.cache.map
                  (fun p => if p.1 == k then (p.1, { p.2 with hits := p.2.hits + 1 }) else p),
                statsHits := c.statsHits + 1 })

/-- `set(key, value)`: cleanup expired entries; if still at capacity,
read the first key of the map and — only when that key is truthy
(`if (firstKey)`: an absent key is `undefined` and the empty string is
falsy, both skip the branch) — delete it and count an eviction; then
insert the new entry with the current timestamp and zero hits. -/
def LRUCache.set {V : Type} (now : Nat) (k : String) (v : V) (c : LRUCache V) :
    LRUCache V :=
  let c1 := c.cleanup now
  let c2 :=
    if c1.cache.length ≥ c1.maxSize then
      match c1.cache with
      | [] => c1
      | p :: _ =>
        if p.1 = "" then c1
        else
          { c1 with cache := c1.cache.filter (fun q => !(q.1 == p.1)),
                    statsEvictions := c1.statsEvictions + 1 }
    else c1
  { c2 with cache := mapSet k ⟨v, now, 0⟩ c2.cache }

/-- `clear()`: drop all entries and reset stats. -/
def LRUCache.clear {V : Type} (c : LRUCache V) : LRUCache V :=
  { c with cache := [], statsHits := 0, statsMisses := 0, statsEvictions := 0 }

structure CacheStats where
  size : Nat
  hitRate : ℚ
  missRate : ℚ
  evictions : Nat
deriving Repr, DecidableEq

/-- `getStats()`: rates are `hits/(hits+misses)` and `misses/(hits+misses)`
when the denominator is positive, else 0. -/
def LRUCache.getStats {V : Type} (c : LRUCache V) : CacheStats :=
  let total := c.statsHits + c.statsMisses
  { size := c.cache.length
    hitRate := if total > 0 then (c.statsHits : ℚ) / (total : ℚ) else 0
    missRate := if total > 0 then (c.statsMisses : ℚ) / (total : ℚ) else 0
    evictions := c.statsEvictions }

/-- One cache operation of the public surface, with the observed clock. -/
inductive CacheOp (V : Type) where
  | get (now : Nat) (k : String)
  | set (now : Nat) (k : String) (v : V)
  | clear

def LRUCache.runOp {V : Type} (c : LRUCache V) : CacheOp V → LRUCache V
  | .get now k => (LRUCache.get now k c).2
  | .set now k v => LRUCache.set now k v c
  | .clear => c.clear

def LRUCache.runOps {V : Type} (c : LRUCache V) (ops : List (CacheOp V)) : LRUCache V :=
  ops.foldl LRUCache.runOp c

/- ------------------------------------------------------------------
   Error model (normalize.ts / errors.ts).

   `AlchemystAIError` carries message, code, optional HTTP status, the
   `details.retryAfter` field (the only detail the retry path reads),
   and the retryable flag.  `name` tracks the concrete subclass so that
   the `instanceof RateLimitError` test in `getRetryDelay` is expressible.
   ------------------------------------------------------------------ -/

structure AlchemystAIError where
  name : String
  message : String
  code : String
  statusCode : Option Nat
  retryAfter : Option Nat
  retryable : Bool
deriving Repr, DecidableEq

def AuthenticationError (message : String) : AlchemystAIError :=
  ⟨"AuthenticationError", message, "AUTHENTICATION", some 401, none, false⟩

def AuthorizationError (message : String) : AlchemystAIError :=
  ⟨"AuthorizationError", message, "AUTHORIZATION", some 403, none, false⟩

def RateLimitError (message : String) (retryAfter : Option Nat) : AlchemystAIError :=
  ⟨"RateLimitError", message, "RATE_LIMIT", some 429, retryAfter, true⟩

def NetworkError (message : String) : AlchemystAIError :=
  ⟨"NetworkError", message, "NETWORK", none, none, true⟩

def ValidationError (message : String) : AlchemystAIError :=
  ⟨"ValidationError", message, "VALIDATION", some 400, none, false⟩

def TimeoutError (message : String) : AlchemystAIError :=
  ⟨"TimeoutError", message, "TIMEOUT", some 408, none, true⟩

def NotFoundError (message : String) : AlchemystAIError :=
  ⟨"NotFoundError", message, "NOT_FOUND", some 404, none, false⟩

/-- A raw thrown value reaching `detectErrorFromException`: an already
classified error, a plain JavaScript `Error` (name and message), or a
non-Error value coerced by `String(error)` to the given string. -/
inductive RawError where
  | alch (e : AlchemystAIError)
  | err (ename message : String)
  | nonError (s : String)
deriving Repr, DecidableEq

/-- `detectErrorFromException` (normalize.ts): already classified errors
pass through; plain Errors are keyword-sniffed on the lowercased message,
falling back to a non-retryable INTERNAL error; non-Error values become a
non-retryable UNKNOWN error with `String(error)` as message. -/
def detectErrorFromException : RawError → AlchemystAIError
  | .alch e => e
  | .err _ message =>
    let m := strToLower message
    if strIncludes m "network" || strIncludes m "fetch" then
      NetworkError message
    else if strIncludes m "timeout" then
      TimeoutError message
    else if strIncludes m "validation" || strIncludes m "invalid" then
      ValidationError message
    else if strIncludes m "auth" || strIncludes m "key" then
      AuthenticationError message
    else
      ⟨"AlchemystAIError", message, "INTERNAL", none, none, false⟩
  | .nonError s =>
    ⟨"AlchemystAIError", s, "UNKNOWN", none, none, false⟩

/-- `getRetryDelay` (normalize.ts): a RateLimit error whose details carry
a truthy `retryAfter` yields `retryAfter * 1000`; otherwise exponential
backoff `min(1000 * 2^(attempt-1), 30000)`. -/
def getRetryDelay (error : RawError) (attempt : Nat) : Nat :=
  let e := detectErrorFromException error
  if e.name == "RateLimitError" && e.retryAfter.getD 0 != 0 then
    e.retryAfter.getD 0 * 1000
  else
    min (1000 * 2 ^ (attempt - 1)) 30000

/- ------------------------------------------------------------------
   withRetry (normalize.ts).

   The operation is modelled by its behaviour per 1-indexed attempt.
   The result records the settled value (`.error none` models the
   `throw lastError!` with `lastError` still undefined when the loop
   body never ran), the delays slept between attempts, the number of
   `onRetry` callback invocations, and the number of attempts made.
   ------------------------------------------------------------------ -/

structure RetryOptions where
  maxAttempts : Nat
  baseDelay : Nat
  maxDelay : Nat
deriving Repr, DecidableEq

def DEFAULT_RETRY_OPTIONS : RetryOptions :=
  { maxAttempts := 3, baseDelay := 1000, maxDelay := 30000 }

structure RetryResult (T : Type) where
  result : Except (Option AlchemystAIError) T
  delays : List Nat
  retryCalls : Nat
  attempts : Nat
deriving Repr

/-- The loop body of `withRetry` over the list of remaining attempt
indices: classify a failure; rethrow if not retryable or if this was the
last attempt; otherwise sleep `min(baseDelay * 2^(attempt-1), maxDelay)`,
invoke `onRetry`, and continue. -/
def runAttempts {T : Type} (op : Nat → Except RawError T) (opts : RetryOptions) :
    List Nat → Option AlchemystAIError → RetryResult T
  | [], last => ⟨.error last, [], 0, 0⟩
  | a :: rest, _ =>
    match op a with
    | .ok v => ⟨.ok v, [], 0, 1⟩
    | .error raw =>
      let e := detectErrorFromException raw
      if !e.retryable then ⟨.error (some e), [], 0, 1⟩
      else if rest.isEmpty then ⟨.error (some e), [], 0, 1⟩
      else
        let delay := min (opts.baseDelay * 2 ^ (a - 1)) opts.maxDelay
        let r := runAttempts op opts rest (some e)
        ⟨r.result, delay :: r.delays, r.retryCalls + 1, r.attempts + 1⟩

/-- `withRetry`: attempts run for `attempt = 1 .. maxAttempts`;
`lastError` starts out undefined. -/
def withRetry {T : Type} (op : Nat → Except RawError T) (opts : RetryOptions) :
    RetryResult T :=
  runAttempts op opts (List.range' 1 opts.maxAttempts) none

/- ------------------------------------------------------------------
   AlchemystClientImpl (schemas.ts).
   ------------------------------------------------------------------ -/

structure ClientMetricsData where
  totalRequests : Nat
  successfulRequests : Nat
  failedRequests : Nat
  averageResponseTime : ℚ
  cacheHits : Nat
  cacheMisses : Nat
  retryCount : Nat
  lastError : Option AlchemystAIError
  startTime : ℚ
deriving Repr, DecidableEq

def initialMetrics (startTime : ℚ) : ClientMetricsData :=
  ⟨0, 0, 0, 0, 0, 0, 0, none, startTime⟩

/-- The mutable state of one `AlchemystClientImpl`: the configured
`maxRetries`, whether the underlying vendor connection object is present,
the response cache, the metrics accumulator, and the disposed flag. -/
structure ClientState where
  maxRetries : Nat
  clientPresent : Bool
  cache : LRUCache ℚ
  metricsData : ClientMetricsData
  disposed : Bool
deriving Repr, DecidableEq

/-- The constructor: zeroed metrics, a fresh cache with `maxSize = 100`
and the configured TTL, connection present, not disposed. -/
def mkClient (maxRetries cacheTtl : Nat) (startTime : ℚ) : ClientState :=
  { maxRetries := maxRetries
    clientPresent := true
    cache := LRUCache.init ℚ 100 cacheTtl
    metricsData := initialMetrics startTime
    disposed := false }

/-- `private updateResponseTime(responseTime)`: incremental running mean
over `total = successfulRequests + failedRequests`. -/
def updateResponseTime (responseTime : ℚ) (m : ClientMetricsData) : ClientMetricsData :=
  let total := m.successfulRequests + m.failedRequests
  if total = 1 then { m with averageResponseTime := responseTime }
  else
    { m with averageResponseTime :=
        (m.averageResponseTime * ((total : ℚ) - 1) + responseTime) / (total : ℚ) }

/-- What an `execute` call can reject with: the plain
`Error("Client has been disposed")`, a classified error thrown by the
retry loop, or the undefined `lastError` thrown when the loop body never
ran. -/
inductive ExecError where
  | disposed
  | classified (e : AlchemystAIError)
  | undef
deriving Repr, DecidableEq

namespace AlchemystClient

/-- `execute(operation)`: fail fast when disposed; count the request; run
the operation under `withRetry` with `maxAttempts = config.maxRetries`
(other options defaulted), counting each `onRetry` callback into
`retryCount`; then record success or failure and the elapsed time. -/
def execute {T : Type} (c : ClientState) (op : Nat → Except RawError T)
    (elapsed : ℚ) : Except ExecError T × ClientState :=
  if c.disposed then (.error .disposed, c)
  else
    let m1 := { c.metricsData with totalRequests := c.metricsData.totalRequests + 1 }
    let r := withRetry op { DEFAULT_RETRY_OPTIONS with maxAttempts := c.maxRetries }
    let m2 := { m1 with retryCount := m1.retryCount + r.retryCalls }
    match r.result with
    | .ok v =>
      let m3 := updateResponseTime elapsed
        { m2 with successfulRequests := m2.successfulRequests + 1 }
      (.ok v, { c with metricsData := m3 })
    | .error le =>
      let m3 := updateResponseTime elapsed
        { m2 with failedRequests := m2.failedRequests + 1, lastError := le }
      (.error (match le with | some e => .classified e | none => .undef),
       { c with metricsData := m3 })

structure ToolExecutionContext where
  requestId : String
  userId : String
  sessionId : String
deriving Repr, DecidableEq

/-- `executeWithContext(operation, context)`: optional debug logging (no
state effect), then delegate to `execute`. -/
def executeWithContext {T : Type} (c : ClientState) (op : Nat → Except RawError T)
    (_ctx : ToolExecutionContext) (elapsed : ℚ) : Except ExecError T × ClientState :=
  execute c op elapsed

/-- `healthCheck()`: false when the connection object is absent, else
true; the disposed flag is not consulted. -/
def healthCheck (c : ClientState) : Bool :=
  if !c.clientPresent then false else true

/-- `dispose()`: no-op when already disposed; otherwise clear the cache
and mark disposed. -/
def dispose (c : ClientState) : ClientState :=
  if c.disposed then c
  else { c with cache := c.cache.clear, disposed := true }

def clearCache (c : ClientState) : ClientState :=
  { c with cache := c.cache.clear }

def resetMetrics (startTime : ℚ) (c : ClientState) : ClientState :=
  { c with metricsData := initialMetrics startTime }

/-- The snapshot returned by `getMetrics()`: a copy of the accumulator
with derived `uptime` and with `cacheHits`/`cacheMisses` recomputed by
scaling the cache hit/miss rates by the accumulator's hit+miss sum. -/
structure ClientMetricsSnapshot where
  totalRequests : Nat
  successfulRequests : Nat
  failedRequests : Nat
  averageResponseTime : ℚ
  cacheHits : ℚ
  cacheMisses : ℚ
  retryCount : Nat
  lastError : Option AlchemystAIError
  uptime : ℚ
  startTime : ℚ
deriving Repr, DecidableEq

def getMetrics (now : ℚ) (c : ClientState) : ClientMetricsSnapshot :=
  let m := c.metricsData
  { totalRequests := m.totalRequests
    successfulRequests := m.successfulRequests
    failedRequests := m.failedRequests
    averageResponseTime := m.averageResponseTime
    cacheHits := c.cache.getStats.hitRate * ((m.cacheHits : ℚ) + (m.cacheMisses : ℚ))
    cacheMisses := c.cache.getStats.missRate * ((m.cacheHits : ℚ) + (m.cacheMisses : ℚ))
    retryCount := m.retryCount
    lastError := m.lastError
    uptime := now - m.startTime
    startTime := m.startTime }

/-- One call on the public client surface. -/
inductive ClientEvent where
  | exec (op : Nat → Except RawError ℚ) (elapsed : ℚ)
  | execCtx (op : Nat → Except RawError ℚ) (ctx : ToolExecutionContext) (elapsed : ℚ)
  | disposeEv
  | clearCacheEv
  | resetMetricsEv (t : ℚ)

def runEvent (c : ClientState) : ClientEvent → ClientState
  | .exec op d => (execute c op d).2
  | .execCtx op ctx d => (executeWithContext c op ctx d).2
  | .disposeEv => dispose c
  | .clearCacheEv => clearCache c
  | .resetMetricsEv t => resetMetrics t c

def runEvents (c : ClientState) (evs : List ClientEvent) : ClientState :=
  evs.foldl runEvent c

end AlchemystClient

/- ------------------------------------------------------------------
   Cache size lemmas (claim C1).
   ------------------------------------------------------------------ -/

theorem mapSet_length_le {V : Type} (k : String) (e : CacheEntry V)
    (l : List (String × CacheEntry V)) : (mapSet k e l).length ≤ l.length + 1 := by
  induction l with
  | nil => simp [mapSet]
  | cons p rest ih =>
    by_cases h : p.1 = k
    · simp [mapSet, h]
    · simp only [mapSet, if_neg h, List.length_cons]
      exact Nat.succ_le_succ ih

theorem mapSet_nil {V : Type} (k : String) (e : CacheEntry V) :
    mapSet k e [] = [(k, e)] := rfl

theorem filter_not_head_length_le {V : Type} (p : String × CacheEntry V)
    (l : List (String × CacheEntry V)) :
    ((p :: l).filter (fun q => !(q.1 == p.1))).length ≤ l.length := by
  have h : (!(p.1 == p.1)) = false := by simp
  simp only [List.filter, h]
  exact List.length_filter_le _ l

theorem cleanup_fields {V : Type} (now : Nat) (c : LRUCache V) :
    (c.cleanup now).maxSize = c.maxSize ∧ (c.cleanup now).ttl = c.ttl ∧
    (c.cleanup now).cache.length ≤ c.cache.length := by
  refine ⟨rfl, rfl, ?_⟩
  exact List.length_filter_le _ c.cache

/-- After `set`, the number of entries is at most `max maxSize 1`, given
that it was at most `max maxSize 1` before and no stored key is the
empty string (so the truthiness guard never blocks eviction). -/
theorem set_length_le_max {V : Type} (now : Nat) (k : String) (v : V)
    (c : LRUCache V) (hlen : c.cache.length ≤ max c.maxSize 1)
    (hkeys : ∀ p ∈ c.cache, p.1 ≠ "") :
    (c.set now k v).cache.length ≤ max c.maxSize 1 := by
  unfold LRUCache.set
  have h1 : (c.cleanup now).cache.length ≤ c.cache.length :=
    List.length_filter_le _ c.cache
  by_cases hcap : (c.cleanup now).cache.length ≥ (c.cleanup now).maxSize
  · simp only [hcap, if_true]
    cases hc : (c.cleanup now).cache with
    | nil =>
      simp only [hc]
      have : (mapSet k ⟨v, now, 0⟩ ([] : List (String × CacheEntry V))).length = 1 := rfl
      -- the cache field being matched is [], so the eviction branch keeps c1
      simp [mapSet]
    | cons p rest =>
      have hp : p.1 ≠ "" := by
        apply hkeys
        have hmem : p ∈ (c.cleanup now).cache := by
          rw [hc]
          exact List.mem_cons_self p rest
        simp only [LRUCache.cleanup] at hmem
        exact List.mem_of_mem_filter hmem
      simp only [hc, if_neg hp]
      have h2 : ((p :: rest).filter (fun q => !(q.1 == p.1))).length ≤ rest.length :=
        filter_not_head_length_le p rest
      have h3 := mapSet_length_le k (⟨v, now, 0⟩ : CacheEntry V)
        ((p :: rest).filter (fun q => !(q.1 == p.1)))
      have h4 : (p :: rest).length ≤ c.cache.length := by rw [← hc]; exact h1
      simp only [List.length_cons] at h4
      calc (mapSet k ⟨v, now, 0⟩ ((p :: rest).filter (fun q => !(q.1 == p.1)))).length
        ≤ ((p :: rest).filter (fun q => !(q.1 == p.1))).length + 1 := h3
        _ ≤ rest.length + 1 := by omega
        _ ≤ c.cache.length := h4
        _ ≤ max c.maxSize 1 := hlen
  · simp only [hcap, if_false]
    have h3 := mapSet_length_le k (⟨v, now, 0⟩ : CacheEntry V) (c.cleanup now).cache
    have hm : (c.cleanup now).maxSize = c.maxSize := rfl
    push_neg at hcap
    rw [hm] at hcap
    omega

/-- With `maxSize = 0` and no empty-string key stored, a `set` always
leaves exactly one entry: the capacity branch evicts the previous head
(if any) and the fresh entry is then inserted and stays. -/
theorem set_length_of_maxSize_zero {V : Type} (now : Nat) (k : String) (v : V)
    (c : LRUCache V) (hms : c.maxSize = 0) (hlen : c.cache.length ≤ 1)
    (hkeys : ∀ p ∈ c.cache, p.1 ≠ "") :
    (c.set now k v).cache.length = 1 := by
  unfold LRUCache.set
  have h1 : (c.cleanup now).cache.length ≤ c.cache.length :=
    List.length_filter_le _ c.cache
  have hm : (c.cleanup now).maxSize = c.maxSize := rfl
  have hcap : (c.cleanup now).cache.length ≥ (c.cleanup now).maxSize := by
    rw [hm, hms]; exact Nat.zero_le _
  simp only [hcap, if_true]
  cases hc : (c.cleanup now).cache with
  | nil => rw [hc]; rfl
  | cons p rest =>
    have h4 : (p :: rest).length ≤ 1 := by rw [← hc]; omega
    have hrest : rest = [] := by
      simp only [List.length_cons] at h4
      exact List.eq_nil_of_length_eq_zero (by omega)
    subst hrest
    have hf : ((p :: []).filter (fun q => !(q.1 == p.1))) = [] := by
      simp [List.filter]
    have hp : p.1 ≠ "" := by
      apply hkeys
      have hmem : p ∈ (c.cleanup now).cache := by
        rw [hc]
        exact List.mem_cons_self p []
      simp only [LRUCache.cleanup] at hmem
      exact List.mem_of_mem_filter hmem
    simp only [hc, if_neg hp, hf, mapSet]
    rfl

theorem set_maxSize {V : Type} (now : Nat) (k : String) (v : V) (c : LRUCache V) :
    (c.set now k v).maxSize = c.maxSize := by
  unfold LRUCache.set
  by_cases hcap : (c.cleanup now).cache.length ≥ (c.cleanup now).maxSize
  · simp only [hcap, if_true]
    cases hc : (c.cleanup now).cache with
    | nil => rfl
    | cons p rest =>
      dsimp only
      by_cases hp : p.1 = ""
      · rw [if_pos hp]
        rfl
      · rw [if_neg hp]
        rfl
  · simp only [hcap, if_false]
    rfl

theorem get_snd_length_le {V : Type} (now : Nat) (k : String) (c : LRUCache V) :
    (LRUCache.get now k c).2.cache.length ≤ c.cache.length := by
  unfold LRUCache.get
  cases hf : c.cache.find? (fun p => p.1 == k) with
  | none => simp
  | some item =>
    by_cases httl : now - item.2.timestamp > c.ttl
    · simp only [httl, if_true]
      exact List.length_filter_le _ c.cache
    · simp only [httl, if_false]
      simp

theorem get_snd_maxSize {V : Type} (now : Nat) (k : String) (c : LRUCache V) :
    (LRUCache.get now k c).2.maxSize = c.maxSize := by
  unfold LRUCache.get
  cases hf : c.cache.find? (fun p => p.1 == k) with
  | none => rfl
  | some item =>
    by_cases httl : now - item.2.timestamp > c.ttl
    · simp only [httl, if_true]
    · simp only [httl, if_false]

/-- Any binding of `mapSet k e l` either has key `k` or was in `l`. -/
theorem mapSet_mem_key {V : Type} (k : String) (e : CacheEntry V)
    (l : List (String × CacheEntry V)) :
    ∀ p ∈ mapSet k e l, p.1 = k ∨ p ∈ l := by
  induction l with
  | nil =>
    intro p hp
    simp only [mapSet, List.mem_singleton] at hp
    left
    rw [hp]
  | cons q rest ih =>
    intro p hp
    by_cases hq : q.1 = k
    · simp only [mapSet, if_pos hq, List.mem_cons] at hp
      rcases hp with h | h
      · left
        rw [h]
      · right
        exact List.mem_cons_of_mem _ h
    · simp only [mapSet, if_neg hq, List.mem_cons] at hp
      rcases hp with h | h
      · right
        rw [h]
        exact List.mem_cons_self q rest
      · rcases ih p h with h2 | h2
        · exact Or.inl h2
        · exact Or.inr (List.mem_cons_of_mem _ h2)

/-- The cache after a `set` is `mapSet k` applied to a sublist of the
entries present before. -/
theorem set_cache_shape {V : Type} (now : Nat) (k : String) (v : V) (c : LRUCache V) :
    ∃ l, (c.set now k v).cache = mapSet k ⟨v, now, 0⟩ l ∧ ∀ p ∈ l, p ∈ c.cache := by
  have hsub : ∀ p ∈ (c.cleanup now).cache, p ∈ c.cache := by
    intro p hp
    simp only [LRUCache.cleanup] at hp
    exact List.mem_of_mem_filter hp
  unfold LRUCache.set
  by_cases hcap : (c.cleanup now).cache.length ≥ (c.cleanup now).maxSize
  · simp only [hcap, if_true]
    cases hc : (c.cleanup now).cache with
    | nil =>
      exact ⟨(c.cleanup now).cache, rfl, hsub⟩
    | cons p rest =>
      dsimp only
      by_cases hp : p.1 = ""
      · rw [if_pos hp]
        exact ⟨(c.cleanup now).cache, rfl, hsub⟩
      · rw [if_neg hp]
        refine ⟨(c.cleanup now).cache.filter (fun q => !(q.1 == p.1)), ?_, ?_⟩
        · rw [hc]
        · intro q hq
          exact hsub q (List.mem_of_mem_filter hq)
  · simp only [hcap, if_false]
    exact ⟨(c.cleanup now).cache, rfl, hsub⟩

/-- A `set` with a non-empty key preserves "no stored key is empty". -/
theorem set_keys {V : Type} (now : Nat) (k : String) (v : V) (c : LRUCache V)
    (hkeys : ∀ p ∈ c.cache, p.1 ≠ "") (hk : k ≠ "") :
    ∀ p ∈ (c.set now k v).cache, p.1 ≠ "" := by
  obtain ⟨l, hl, hsub⟩ := set_cache_shape now k v c
  intro p hp
  rw [hl] at hp
  rcases mapSet_mem_key k _ l p hp with h | h
  · rw [h]
    exact hk
  · exact hkeys p (hsub p h)

theorem get_keys {V : Type} (now : Nat) (k : String) (c : LRUCache V)
    (hkeys : ∀ p ∈ c.cache, p.1 ≠ "") :
    ∀ q ∈ (LRUCache.get now k c).2.cache, q.1 ≠ "" := by
  unfold LRUCache.get
  cases hf : c.cache.find? (fun p => p.1 == k) with
  | none => exact hkeys
  | some item =>
    by_cases httl : now - item.2.timestamp > c.ttl
    · simp only [httl, if_true]
      intro q hq
      exact hkeys q (List.mem_of_mem_filter hq)
    · simp only [httl, if_false]
      intro q hq
      simp only [List.mem_map] at hq
      obtain ⟨p, hp, hpq⟩ := hq
      by_cases hpk : (p.1 == k) = true
      · rw [if_pos hpk] at hpq
        rw [← hpq]
        exact hkeys p hp
      · rw [if_neg hpk] at hpq
        rw [← hpq]
        exact hkeys p hp

/-- Whether one public cache call avoids the empty-string key (only
`set` can store a key). -/
def CacheOp.goodKey {V : Type} : CacheOp V → Bool
  | .set _ k _ => k != ""
  | _ => true

/-- The reachable-state invariant of the cache under empty-key-free
operations: the entry count never exceeds `max maxSize 1`, `maxSize` is
never mutated, and no stored key is the empty string. -/
theorem runOp_inv {V : Type} (ms : Nat) (c : LRUCache V) (o : CacheOp V)
    (hms : c.maxSize = ms) (hlen : c.cache.length ≤ max ms 1)
    (hkeys : ∀ p ∈ c.cache, p.1 ≠ "") (hop : o.goodKey = true) :
    (c.runOp o).maxSize = ms ∧ (c.runOp o).cache.length ≤ max ms 1 ∧
    ∀ p ∈ (c.runOp o).cache, p.1 ≠ "" := by
  cases o with
  | get now k =>
    exact ⟨by rw [LRUCache.runOp, get_snd_maxSize, hms],
           le_trans (by rw [LRUCache.runOp]; exact get_snd_length_le now k c) hlen,
           by rw [LRUCache.runOp]; exact get_keys now k c hkeys⟩
  | set now k v =>
    have hk : k ≠ "" := by
      simpa [CacheOp.goodKey] using hop
    refine ⟨by rw [LRUCache.runOp, set_maxSize, hms], ?_,
            by rw [LRUCache.runOp]; exact set_keys now k v c hkeys hk⟩
    rw [LRUCache.runOp]
    have := set_length_le_max now k v c (by rw [hms]; exact hlen) hkeys
    rwa [hms] at this
  | clear =>
    exact ⟨by rw [LRUCache.runOp, LRUCache.clear, hms],
           by simp [LRUCache.runOp, LRUCache.clear],
           by simp [LRUCache.runOp, LRUCache.clear]⟩

theorem runOps_inv {V : Type} (ms : Nat) (c : LRUCache V) (ops : List (CacheOp V))
    (hms : c.maxSize = ms) (hlen : c.cache.length ≤ max ms 1)
    (hkeys : ∀ p ∈ c.cache, p.1 ≠ "")
    (hops : ∀ o ∈ ops, CacheOp.goodKey o = true) :
    (c.runOps ops).maxSize = ms ∧ (c.runOps ops).cache.length ≤ max ms 1 ∧
    ∀ p ∈ (c.runOps ops).cache, p.1 ≠ "" := by
  induction ops generalizing c with
  | nil => exact ⟨hms, hlen, hkeys⟩
  | cons o rest ih =>
    obtain ⟨h1, h2, h3⟩ := runOp_inv ms c o hms hlen hkeys (hops o (by simp))
    exact ih (c.runOp o) h1 h2 h3 (fun o2 ho2 => hops o2 (List.mem_cons_of_mem _ ho2))

/-- C1 counterexample: with `maxSize = 0`, a single `set` on a fresh
cache leaves one entry rather than none (an empty map yields no first
key to delete); and with `maxSize = 1`, storing the empty-string key
and then another key leaves two entries (the `if (firstKey)` truthiness
guard treats the empty string as falsy and skips eviction), so the
claimed invariant `entries.size <= maxSize` is false in both regimes. -/
theorem c1_counterexample :
    (((LRUCache.init Nat 0 100).set 0 "k" 3).cache.length = 1 ∧
     ¬ ((LRUCache.init Nat 0 100).set 0 "k" 3).cache.length ≤ 0) ∧
    ((((LRUCache.init Nat 1 100).set 0 "" 3).set 0 "b" 4).cache.length = 2 ∧
     ¬ (((LRUCache.init Nat 1 100).set 0 "" 3).set 0 "b" 4).cache.length ≤ 1) := by
  refine ⟨⟨rfl, by decide⟩, ⟨rfl, by decide⟩⟩

/-- C1 (amended): for every cache reachable by get/set/clear operations
none of which stores the empty-string key, after any `set` the number
of entries is at most `maxSize` provided `maxSize ≥ 1`; with
`maxSize = 0` such a `set` leaves exactly one entry (the previously
stored entry is evicted, not the newly inserted one).  When the
empty-string key is stored, the truthiness guard skips eviction and the
size can exceed `maxSize` (see the counterexample). -/
theorem c1_set_size_bound (V : Type) (ms ttlS : Nat) (ops : List (CacheOp V))
    (now : Nat) (k : String) (v : V)
    (hops : ∀ o ∈ ops, CacheOp.goodKey o = true) :
    (1 ≤ ms →
      (((LRUCache.init V ms ttlS).runOps ops).set now k v).cache.length ≤ ms) ∧
    (ms = 0 →
      (((LRUCache.init V ms ttlS).runOps ops).set now k v).cache.length = 1) := by
  obtain ⟨hms, hlen, hkeys⟩ :=
    runOps_inv ms (LRUCache.init V ms ttlS) ops rfl (by simp [LRUCache.init])
      (by simp [LRUCache.init]) hops
  constructor
  · intro h1
    have h := set_length_le_max now k v _ (by rw [hms]; exact hlen) hkeys
    rw [hms] at h
    rwa [max_eq_left h1] at h
  · intro h0
    subst h0
    apply set_length_of_maxSize_zero now k v _ hms _ hkeys
    simpa using hlen

/-- C1 witness: concrete instance of the amended bound at
`maxSize = 2` after two inserts with non-empty keys. -/
theorem c1_witness :
    (∀ o ∈ ([CacheOp.set 0 "a" 1, CacheOp.set 0 "b" 2] : List (CacheOp Nat)),
      CacheOp.goodKey o = true) ∧
    1 ≤ 2 ∧
    (((LRUCache.init Nat 2 5).runOps
        [CacheOp.set 0 "a" 1, CacheOp.set 0 "b" 2]).set 0 "c" 3).cache.length ≤ 2 :=
  ⟨by decide, by decide,
   (c1_set_size_bound Nat 2 5 [CacheOp.set 0 "a" 1, CacheOp.set 0 "b" 2]
      0 "c" 3 (by decide)).1 (by decide)⟩
/- ------------------------------------------------------------------
   Claims C7, C5, C10: healthCheck, disposal fencing, zero retries.
   ------------------------------------------------------------------ -/

/-- C7 counterexample: after `dispose()` the client is disposed, yet
`healthCheck` still returns true — the disposed flag is never consulted,
only the presence of the connection object. -/
theorem c7_counterexample :
    AlchemystClient.healthCheck (AlchemystClient.dispose (mkClient 3 300 0)) = true ∧
    (AlchemystClient.dispose (mkClient 3 300 0)).disposed = true := by
  exact ⟨rfl, rfl⟩

/-- C7 (amended): `healthCheck` returns true iff the underlying
connection object is present, regardless of the disposed flag: in
particular it still returns true after `dispose()`.  It never throws
(it is total). -/
theorem c7_healthCheck (c : ClientState) (mr ttlS : Nat) (st : ℚ) :
    (AlchemystClient.healthCheck c = true ↔ c.clientPresent = true) ∧
    AlchemystClient.healthCheck (AlchemystClient.dispose (mkClient mr ttlS st)) = true := by
  constructor
  · unfold AlchemystClient.healthCheck
    cases c.clientPresent <;> simp
  · rfl

/-- C5: once disposed, `execute` (and `executeWithContext`) rejects with
the disposed-state error and leaves the state — metrics and cache —
completely unchanged, for every operation (so the backend operation is
never invoked); `dispose` is idempotent. -/
theorem c5_dispose_fences {T : Type} (c : ClientState) (h : c.disposed = true)
    (op : Nat → Except RawError T) (elapsed : ℚ)
    (ctx : AlchemystClient.ToolExecutionContext) (c2 : ClientState) :
    AlchemystClient.execute c op elapsed = (.error .disposed, c) ∧
    AlchemystClient.executeWithContext c op ctx elapsed = (.error .disposed, c) ∧
    AlchemystClient.dispose (AlchemystClient.dispose c2) = AlchemystClient.dispose c2 := by
  refine ⟨?_, ?_, ?_⟩
  · simp [AlchemystClient.execute, h]
  · simp [AlchemystClient.executeWithContext, AlchemystClient.execute, h]
  · by_cases h2 : c2.disposed
    · simp [AlchemystClient.dispose, h2]
    · simp [AlchemystClient.dispose, h2]

/-- C5 witness: the fence at a concrete disposed client. -/
theorem c5_witness :
    (AlchemystClient.dispose (mkClient 3 300 0)).disposed = true ∧
    AlchemystClient.execute (AlchemystClient.dispose (mkClient 3 300 0))
        (fun _ => Except.ok (0 : ℚ)) 5
      = (.error .disposed, AlchemystClient.dispose (mkClient 3 300 0)) ∧
    AlchemystClient.executeWithContext (AlchemystClient.dispose (mkClient 3 300 0))
        (fun _ => Except.ok (0 : ℚ)) ⟨"r", "u", "s"⟩ 5
      = (.error .disposed, AlchemystClient.dispose (mkClient 3 300 0)) ∧
    AlchemystClient.dispose (AlchemystClient.dispose (mkClient 1 1 0))
      = AlchemystClient.dispose (mkClient 1 1 0) := by
  refine ⟨rfl, ?_⟩
  exact c5_dispose_fences (AlchemystClient.dispose (mkClient 3 300 0)) rfl
    (fun _ => Except.ok (0 : ℚ)) 5 ⟨"r", "u", "s"⟩ (mkClient 1 1 0)

/-- C10: with `maxRetries = 0` the retry loop body never runs: the
operation is never invoked (the outcome is independent of it), zero
attempts are made, and `execute` rejects with the undefined
uninitialized `lastError` (modelled `.undef`) rather than a classified
error. -/
theorem c10_zero_retries {T : Type} (c : ClientState) (h0 : c.disposed = false)
    (hmr : c.maxRetries = 0) (op op2 : Nat → Except RawError T) (elapsed : ℚ) :
    (AlchemystClient.execute c op elapsed).1 = .error .undef ∧
    AlchemystClient.execute c op elapsed = AlchemystClient.execute c op2 elapsed ∧
    (withRetry op { DEFAULT_RETRY_OPTIONS with maxAttempts := c.maxRetries }).attempts = 0 := by
  have hw : ∀ (o : Nat → Except RawError T),
      withRetry o { DEFAULT_RETRY_OPTIONS with maxAttempts := c.maxRetries }
        = ⟨.error none, [], 0, 0⟩ := by
    intro o
    unfold withRetry
    simp [hmr, runAttempts]
  refine ⟨?_, ?_, by rw [hw]⟩
  · simp [AlchemystClient.execute, h0, hw]
  · simp [AlchemystClient.execute, h0, hw]

/-- C10 witness: concrete zero-retry client. -/
theorem c10_witness :
    (mkClient 0 300 0).disposed = false ∧ (mkClient 0 300 0).maxRetries = 0 ∧
    (AlchemystClient.execute (mkClient 0 300 0)
        (fun _ => Except.ok (1 : ℚ)) 5).1 = .error .undef := by
  refine ⟨rfl, rfl, ?_⟩
  exact (c10_zero_retries (mkClient 0 300 0) rfl rfl
    (fun _ => Except.ok (1 : ℚ)) (fun _ => Except.ok (2 : ℚ)) 5).1

/- ------------------------------------------------------------------
   Claim C2: the cache hit/miss metrics are identically zero.
   ------------------------------------------------------------------ -/

theorem updateResponseTime_cacheHits (d : ℚ) (m : ClientMetricsData) :
    (updateResponseTime d m).cacheHits = m.cacheHits := by
  unfold updateResponseTime
  by_cases h : m.successfulRequests + m.failedRequests = 1 <;> simp [h]

theorem updateResponseTime_cacheMisses (d : ℚ) (m : ClientMetricsData) :
    (updateResponseTime d m).cacheMisses = m.cacheMisses := by
  unfold updateResponseTime
  by_cases h : m.successfulRequests + m.failedRequests = 1 <;> simp [h]

/-- `execute` never touches the `cacheHits`/`cacheMisses` accumulator
fields: the execute path does not read or write the response cache. -/
theorem execute_cache_counters {T : Type} (c : ClientState)
    (op : Nat → Except RawError T) (d : ℚ) :
    (AlchemystClient.execute c op d).2.metricsData.cacheHits = c.metricsData.cacheHits ∧
    (AlchemystClient.execute c op d).2.metricsData.cacheMisses = c.metricsData.cacheMisses := by
  unfold AlchemystClient.execute
  by_cases hd : c.disposed
  · simp [hd]
  · simp only [hd, if_neg, Bool.false_eq_true, if_false]
    cases hr : (withRetry op { DEFAULT_RETRY_OPTIONS with maxAttempts := c.maxRetries }).result
    · simp [hr, updateResponseTime_cacheHits, updateResponseTime_cacheMisses]
    · simp [hr, updateResponseTime_cacheHits, updateResponseTime_cacheMisses]

theorem runEvent_cache_counters (c : ClientState) (ev : AlchemystClient.ClientEvent) :
    (AlchemystClient.runEvent c ev).metricsData.cacheHits = c.metricsData.cacheHits ∨
    (AlchemystClient.runEvent c ev).metricsData.cacheHits = 0 := by
  cases ev with
  | exec op d => exact Or.inl (execute_cache_counters c op d).1
  | execCtx op ctx d => exact Or.inl (execute_cache_counters c op d).1
  | disposeEv =>
    by_cases h : c.disposed <;> simp [AlchemystClient.runEvent, AlchemystClient.dispose, h]
  | clearCacheEv => exact Or.inl rfl
  | resetMetricsEv t => exact Or.inr rfl

theorem runEvent_cache_counters_misses (c : ClientState) (ev : AlchemystClient.ClientEvent) :
    (AlchemystClient.runEvent c ev).metricsData.cacheMisses = c.metricsData.cacheMisses ∨
    (AlchemystClient.runEvent c ev).metricsData.cacheMisses = 0 := by
  cases ev with
  | exec op d => exact Or.inl (execute_cache_counters c op d).2
  | execCtx op ctx d => exact Or.inl (execute_cache_counters c op d).2
  | disposeEv =>
    by_cases h : c.disposed <;> simp [AlchemystClient.runEvent, AlchemystClient.dispose, h]
  | clearCacheEv => exact Or.inl rfl
  | resetMetricsEv t => exact Or.inr rfl

theorem runEvents_cache_counters (c : ClientState)
    (evs : List AlchemystClient.ClientEvent)
    (hh : c.metricsData.cacheHits = 0) (hm : c.metricsData.cacheMisses = 0) :
    (AlchemystClient.runEvents c evs).metricsData.cacheHits = 0 ∧
    (AlchemystClient.runEvents c evs).metricsData.cacheMisses = 0 := by
  induction evs generalizing c with
  | nil => exact ⟨hh, hm⟩
  | cons ev rest ih =>
    apply ih
    · rcases runEvent_cache_counters c ev with h | h
      · rw [h, hh]
      · exact h
    · rcases runEvent_cache_counters_misses c ev with h | h
      · rw [h, hm]
      · exact h

/-- C2: after any sequence of client calls from a fresh client, the
`cacheHits` and `cacheMisses` fields of `getMetrics` are both 0: the
execute path never reads or writes the response cache, the internal
counters stay 0, and `getMetrics` scales the cache hit/miss rates by
their (always zero) sum. -/
theorem c2_cache_metrics_zero (mr ttlS : Nat) (st now : ℚ)
    (evs : List AlchemystClient.ClientEvent) :
    (AlchemystClient.runEvents (mkClient mr ttlS st) evs).metricsData.cacheHits = 0 ∧
    (AlchemystClient.runEvents (mkClient mr ttlS st) evs).metricsData.cacheMisses = 0 ∧
    (AlchemystClient.getMetrics now
        (AlchemystClient.runEvents (mkClient mr ttlS st) evs)).cacheHits = 0 ∧
    (AlchemystClient.getMetrics now
        (AlchemystClient.runEvents (mkClient mr ttlS st) evs)).cacheMisses = 0 := by
  obtain ⟨hh, hm⟩ := runEvents_cache_counters (mkClient mr ttlS st) evs rfl rfl
  refine ⟨hh, hm, ?_, ?_⟩ <;>
    simp [AlchemystClient.getMetrics, hh, hm]

/- ------------------------------------------------------------------
   Retry lemmas (claims C3, C4, C6).
   ------------------------------------------------------------------ -/

/-- A first attempt failing with a non-retryable error short-circuits:
one attempt, no delays, no retry callbacks. -/
theorem runAttempts_not_retryable {T : Type} (op : Nat → Except RawError T)
    (opts : RetryOptions) (a : Nat) (rest : List Nat) (last : Option AlchemystAIError)
    (raw : RawError) (hop : op a = .error raw)
    (hr : (detectErrorFromException raw).retryable = false) :
    runAttempts op opts (a :: rest) last
      = ⟨.error (some (detectErrorFromException raw)), [], 0, 1⟩ := by
  unfold runAttempts
  rw [hop]
  simp [hr]

/-- An operation failing with a retryable error on every attempt:
`n` attempts are made, `n - 1` retry callbacks fire, and the final
rejection is the classification of the last attempt's raw error. -/
theorem runAttempts_always_fail {T : Type} (opts : RetryOptions)
    (raws : Nat → RawError)
    (hr : ∀ i, (detectErrorFromException (raws i)).retryable = true) :
    ∀ (n a : Nat) (last : Option AlchemystAIError), 1 ≤ n →
    (runAttempts (fun i => (.error (raws i) : Except RawError T)) opts
        (List.range' a n) last).result
        = .error (some (detectErrorFromException (raws (a + n - 1)))) ∧
    (runAttempts (fun i => (.error (raws i) : Except RawError T)) opts
        (List.range' a n) last).retryCalls = n - 1 ∧
    (runAttempts (fun i => (.error (raws i) : Except RawError T)) opts
        (List.range' a n) last).attempts = n := by
  intro n
  induction n with
  | zero => intro a last h; omega
  | succ m ih =>
    intro a last _
    rw [List.range'_succ]
    cases m with
    | zero =>
      unfold runAttempts
      simp [hr a]
    | succ m2 =>
      have hne : (List.range' (a + 1) (m2 + 1)).isEmpty = false := by
        simp [List.range'_succ, List.isEmpty]
      unfold runAttempts
      simp only [hr a, Bool.not_true, Bool.false_eq_true, if_false, hne]
      obtain ⟨ih1, ih2, ih3⟩ := ih (a + 1) (some (detectErrorFromException (raws a)))
        (by omega)
      refine ⟨?_, ?_, ?_⟩
      · simpa [show a + 1 + (m2 + 1) - 1 = a + (m2 + 1 + 1) - 1 by omega] using ih1
      · simpa using ih2
      · simpa using ih3

/-- Every delay recorded by the retry loop follows the exponential
backoff formula for its attempt index, regardless of the error kind. -/
theorem runAttempts_delays {T : Type} (op : Nat → Except RawError T)
    (opts : RetryOptions) :
    ∀ (n a : Nat) (last : Option AlchemystAIError) (i d : Nat), 1 ≤ a →
    (runAttempts op opts (List.range' a n) last).delays.get? i = some d →
    d = min (opts.baseDelay * 2 ^ (a - 1 + i)) opts.maxDelay := by
  intro n
  induction n with
  | zero =>
    intro a last i d ha h
    simp [runAttempts] at h
  | succ m ih =>
    intro a last i d ha h
    rw [List.range'_succ] at h
    cases hop : op a with
    | ok v =>
      unfold runAttempts at h
      rw [hop] at h
      simp at h
    | error raw =>
      unfold runAttempts at h
      rw [hop] at h
      by_cases hr : (detectErrorFromException raw).retryable
      · by_cases hrest : (List.range' (a + 1) m).isEmpty
        · simp [hr, hrest] at h
        · simp only [hr, Bool.not_true, Bool.false_eq_true, if_false,
            hrest, Bool.true_eq_false] at h
          cases i with
          | zero =>
            simp only [List.get?_cons_zero, Option.some.injEq] at h
            simp only [Nat.add_zero]
            exact h.symm
          | succ j =>
            simp only [List.get?_cons_succ] at h
            have := ih (a + 1) (some (detectErrorFromException raw)) j d (by omega) h
            rwa [show a + 1 - 1 + j = a - 1 + (j + 1) by omega] at this
      · simp [hr] at h

/-- C3 counterexample: an operation that always fails with a RateLimit
error carrying `retryAfter = 7` is retried after the plain exponential
delays 1000 ms and 2000 ms — not after the 7000 ms that `getRetryDelay`
would return — because the retry loop computes its delay inline and
never calls `getRetryDelay`. -/
theorem c3_counterexample :
    (withRetry (fun _ => (.error (.alch (RateLimitError "rate limited" (some 7)))
        : Except RawError Nat)) DEFAULT_RETRY_OPTIONS).delays = [1000, 2000] ∧
    getRetryDelay (.alch (RateLimitError "rate limited" (some 7))) 1 = 7000 ∧
    (1000 : Nat) ≠ 7000 := by
  refine ⟨?_, ?_, by decide⟩ <;> rfl

/-- C3 (amended): the delay before retry attempt k+1 always equals
`min(baseDelay * 2^(k-1), maxDelay)`, for RateLimit failures exactly as
for every other retryable failure; the `retryAfter` override exists only
in the helper `getRetryDelay`, which the retry loop never invokes. -/
theorem c3_backoff_delays {T : Type} (op : Nat → Except RawError T)
    (opts : RetryOptions) :
    (∀ i d, (withRetry op opts).delays.get? i = some d →
        d = min (opts.baseDelay * 2 ^ i) opts.maxDelay) ∧
    (∀ (msg : String) (r a : Nat), r ≠ 0 →
        getRetryDelay (.alch (RateLimitError msg (some r))) a = r * 1000) := by
  constructor
  · intro i d h
    have := runAttempts_delays op opts opts.maxAttempts 1 none i d (by omega) h
    simpa using this
  · intro msg r a hr
    unfold getRetryDelay
    simp [detectErrorFromException, RateLimitError, hr]

/-- C3 witness: the first recorded delay of the RateLimit run is
1000 ms and matches the backoff formula, while `getRetryDelay` would
have returned 7000 ms. -/
theorem c3_witness :
    ((withRetry (fun _ => (.error (.alch (RateLimitError "rate limited" (some 7)))
        : Except RawError Nat)) DEFAULT_RETRY_OPTIONS).delays.get? 0 = some 1000) ∧
    (1000 : Nat) = min (DEFAULT_RETRY_OPTIONS.baseDelay * 2 ^ 0)
        DEFAULT_RETRY_OPTIONS.maxDelay ∧
    (7 : Nat) ≠ 0 ∧
    getRetryDelay (.alch (RateLimitError "rate limited" (some 7))) 1 = 7 * 1000 := by
  refine ⟨rfl, ?_, by decide, ?_⟩
  · exact (c3_backoff_delays (fun _ => (.error (.alch (RateLimitError "rate limited"
      (some 7))) : Except RawError Nat)) DEFAULT_RETRY_OPTIONS).1 0 1000 rfl
  · exact (c3_backoff_delays (fun _ => (.error (.alch (RateLimitError "rate limited"
      (some 7))) : Except RawError Nat)) DEFAULT_RETRY_OPTIONS).2 "rate limited" 7 1
      (by decide)

/-- C4: with `maxRetries >= 1`, an operation failing on every invocation
with a retryable classified error is attempted exactly `maxRetries`
times, `execute` rejects with the final classified error, and the
`retryCount` metric ends at `maxRetries - 1`. -/
theorem c4_retry_exhaustion (mr ttlS : Nat) (st elapsed : ℚ) (raws : Nat → RawError)
    (h1 : 1 ≤ mr)
    (hr : ∀ i, (detectErrorFromException (raws i)).retryable = true) :
    (withRetry (fun i => (.error (raws i) : Except RawError ℚ))
        { DEFAULT_RETRY_OPTIONS with maxAttempts := mr }).attempts = mr ∧
    (AlchemystClient.execute (mkClient mr ttlS st)
        (fun i => (.error (raws i) : Except RawError ℚ)) elapsed).1
      = .error (.classified (detectErrorFromException (raws mr))) ∧
    (AlchemystClient.execute (mkClient mr ttlS st)
        (fun i => (.error (raws i) : Except RawError ℚ)) elapsed).2.metricsData.retryCount
      = mr - 1 := by
  obtain ⟨hres, hcalls, hatt⟩ :=
    runAttempts_always_fail (T := ℚ) { DEFAULT_RETRY_OPTIONS with maxAttempts := mr }
      raws hr mr 1 none h1
  have hidx : 1 + mr - 1 = mr := by omega
  rw [hidx] at hres
  refine ⟨?_, ?_, ?_⟩
  · unfold withRetry
    exact hatt
  · unfold AlchemystClient.execute
    simp only [mkClient, Bool.false_eq_true, if_false]
    unfold withRetry
    rw [show ({ DEFAULT_RETRY_OPTIONS with maxAttempts := mr } : RetryOptions).maxAttempts
      = mr from rfl]
    rw [hres]
  · unfold AlchemystClient.execute
    simp only [mkClient, Bool.false_eq_true, if_false]
    unfold withRetry
    rw [show ({ DEFAULT_RETRY_OPTIONS with maxAttempts := mr } : RetryOptions).maxAttempts
      = mr from rfl]
    rw [hres]
    simp [updateResponseTime, initialMetrics, hcalls]

/-- C4 witness: two attempts with an always-network-failing operation. -/
theorem c4_witness :
    1 ≤ 2 ∧
    (withRetry (fun i => (.error ((fun _ => RawError.alch (NetworkError "boom")) i)
        : Except RawError ℚ)) { DEFAULT_RETRY_OPTIONS with maxAttempts := 2 }).attempts = 2 ∧
    (AlchemystClient.execute (mkClient 2 300 0)
        (fun i => (.error ((fun _ => RawError.alch (NetworkError "boom")) i)
          : Except RawError ℚ)) 5).1
      = .error (.classified (detectErrorFromException (RawError.alch (NetworkError "boom")))) ∧
    (AlchemystClient.execute (mkClient 2 300 0)
        (fun i => (.error ((fun _ => RawError.alch (NetworkError "boom")) i)
          : Except RawError ℚ)) 5).2.metricsData.retryCount = 2 - 1 := by
  have h := c4_retry_exhaustion 2 300 0 5 (fun _ => RawError.alch (NetworkError "boom"))
    (by decide) (fun _ => rfl)
  exact ⟨by decide, h.1, h.2.1, h.2.2⟩

/-- C6 counterexample: a generic `Error` whose message matches no
classification keyword is classified with code INTERNAL, not UNKNOWN,
contrary to the claim. -/
theorem c6_counterexample :
    (detectErrorFromException (.err "Error" "hello")).code = "INTERNAL" ∧
    ¬ (detectErrorFromException (.err "Error" "hello")).code = "UNKNOWN" := by
  constructor
  · rfl
  · decide

/-- A first failure classified non-retryable is never retried: exactly
`min(maxAttempts, 1)` attempts. -/
theorem withRetry_not_retryable_attempts {T : Type} (raw : RawError)
    (hr : (detectErrorFromException raw).retryable = false) (opts : RetryOptions) :
    (withRetry (fun _ => (.error raw : Except RawError T)) opts).attempts
      = min opts.maxAttempts 1 := by
  unfold withRetry
  cases hm : opts.maxAttempts with
  | zero => simp [runAttempts]
  | succ n =>
    rw [List.range'_succ, runAttempts_not_retryable _ opts 1 _ none raw rfl hr]
    show (1 : Nat) = min (n + 1) 1
    omega

/-- C6 (amended): a raw failure matching no classification trigger is
never retried and is classified non-retryable; but only a non-Error
thrown value yields kind Unknown (coerced to its string form), while a
generic Error with an unmatched message yields kind Internal
(code INTERNAL), not Unknown. -/
theorem c6_unmatched_classification (ename msg s : String)
    (h1 : strIncludes (strToLower msg) "network" = false)
    (h2 : strIncludes (strToLower msg) "fetch" = false)
    (h3 : strIncludes (strToLower msg) "timeout" = false)
    (h4 : strIncludes (strToLower msg) "validation" = false)
    (h5 : strIncludes (strToLower msg) "invalid" = false)
    (h6 : strIncludes (strToLower msg) "auth" = false)
    (h7 : strIncludes (strToLower msg) "key" = false) :
    detectErrorFromException (.err ename msg)
      = ⟨"AlchemystAIError", msg, "INTERNAL", none, none, false⟩ ∧
    detectErrorFromException (.nonError s)
      = ⟨"AlchemystAIError", s, "UNKNOWN", none, none, false⟩ ∧
    (∀ opts : RetryOptions,
      (withRetry (fun _ => (.error (.err ename msg) : Except RawError Nat)) opts).attempts
        = min opts.maxAttempts 1 ∧
      (withRetry (fun _ => (.error (.nonError s) : Except RawError Nat)) opts).attempts
        = min opts.maxAttempts 1) := by
  have he : detectErrorFromException (.err ename msg)
      = ⟨"AlchemystAIError", msg, "INTERNAL", none, none, false⟩ := by
    unfold detectErrorFromException
    simp [h1, h2, h3, h4, h5, h6, h7]
  refine ⟨he, rfl, fun opts => ⟨?_, ?_⟩⟩
  · exact withRetry_not_retryable_attempts (.err ename msg) (by rw [he]) opts
  · exact withRetry_not_retryable_attempts (.nonError s) rfl opts

/-- C6 witness: a generic Error "hello" and a raw string thrown value. -/
theorem c6_witness :
    detectErrorFromException (.err "Error" "hello")
      = ⟨"AlchemystAIError", "hello", "INTERNAL", none, none, false⟩ ∧
    detectErrorFromException (.nonError "oops")
      = ⟨"AlchemystAIError", "oops", "UNKNOWN", none, none, false⟩ ∧
    (withRetry (fun _ => (.error (.err "Error" "hello") : Except RawError Nat))
        DEFAULT_RETRY_OPTIONS).attempts = min DEFAULT_RETRY_OPTIONS.maxAttempts 1 ∧
    (withRetry (fun _ => (.error (.nonError "oops") : Except RawError Nat))
        DEFAULT_RETRY_OPTIONS).attempts = min DEFAULT_RETRY_OPTIONS.maxAttempts 1 := by
  have h := c6_unmatched_classification "Error" "hello" "oops"
    (by decide) (by decide) (by decide) (by decide) (by decide) (by decide) (by decide)
  exact ⟨h.1, h.2.1, (h.2.2 DEFAULT_RETRY_OPTIONS).1, (h.2.2 DEFAULT_RETRY_OPTIONS).2⟩

/- ------------------------------------------------------------------
   Claim C9: running average of response times.
   ------------------------------------------------------------------ -/

/-- A sequence of `execute` calls, each given by the operation's
attempt behaviour and the observed wall-clock elapsed time. -/
def runExecs (c : ClientState) (events : List ((Nat → Except RawError ℚ) × ℚ)) :
    ClientState :=
  events.foldl (fun acc p => (AlchemystClient.execute acc p.1 p.2).2) c

theorem execute_disposed_eq {T : Type} (c : ClientState)
    (op : Nat → Except RawError T) (d : ℚ) :
    (AlchemystClient.execute c op d).2.disposed = c.disposed := by
  unfold AlchemystClient.execute
  by_cases hd : c.disposed
  · simp [hd]
  · simp only [hd, Bool.false_eq_true, if_false]
    cases (withRetry op { DEFAULT_RETRY_OPTIONS with maxAttempts := c.maxRetries }).result
      <;> simp [hd]

theorem updateResponseTime_eq (d : ℚ) (m : ClientMetricsData) :
    updateResponseTime d m =
      if m.successfulRequests + m.failedRequests = 1 then
        { m with averageResponseTime := d }
      else
        { m with averageResponseTime :=
            (m.averageResponseTime
                * (((m.successfulRequests + m.failedRequests : Nat) : ℚ) - 1) + d)
              / ((m.successfulRequests + m.failedRequests : Nat) : ℚ) } := rfl

/-- One non-disposed `execute` adds exactly one completed request and
maintains `avg * count = sum of samples`. -/
theorem execute_avg_step {T : Type} (c : ClientState)
    (op : Nat → Except RawError T) (d : ℚ) (hd : c.disposed = false) :
    (AlchemystClient.execute c op d).2.metricsData.successfulRequests
        + (AlchemystClient.execute c op d).2.metricsData.failedRequests
      = c.metricsData.successfulRequests + c.metricsData.failedRequests + 1 ∧
    (AlchemystClient.execute c op d).2.metricsData.averageResponseTime
        * ((c.metricsData.successfulRequests + c.metricsData.failedRequests + 1 : Nat) : ℚ)
      = c.metricsData.averageResponseTime
        * ((c.metricsData.successfulRequests + c.metricsData.failedRequests : Nat) : ℚ)
        + d := by
  have key : ∀ (m : ClientMetricsData),
      m.successfulRequests + m.failedRequests
        = c.metricsData.successfulRequests + c.metricsData.failedRequests + 1 →
      m.averageResponseTime = c.metricsData.averageResponseTime →
      (updateResponseTime d m).successfulRequests + (updateResponseTime d m).failedRequests
          = c.metricsData.successfulRequests + c.metricsData.failedRequests + 1 ∧
      (updateResponseTime d m).averageResponseTime
          * ((c.metricsData.successfulRequests + c.metricsData.failedRequests + 1 : Nat) : ℚ)
        = c.metricsData.averageResponseTime
            * ((c.metricsData.successfulRequests + c.metricsData.failedRequests : Nat) : ℚ)
          + d := by
    intro m hcount havg
    rw [updateResponseTime_eq]
    by_cases h1 : m.successfulRequests + m.failedRequests = 1
    · have hn0 : c.metricsData.successfulRequests + c.metricsData.failedRequests = 0 := by
        omega
      simp only [h1, if_true]
      refine ⟨by omega, ?_⟩
      rw [hn0]
      push_cast
      ring
    · simp only [h1, if_false]
      refine ⟨hcount, ?_⟩
      rw [hcount, havg]
      have hne : ((c.metricsData.successfulRequests + c.metricsData.failedRequests + 1 : Nat)
          : ℚ) ≠ 0 := by
        exact_mod_cast Nat.succ_ne_zero
          (c.metricsData.successfulRequests + c.metricsData.failedRequests)
      field_simp
  unfold AlchemystClient.execute
  simp only [hd, Bool.false_eq_true, if_false]
  cases (withRetry op { DEFAULT_RETRY_OPTIONS with maxAttempts := c.maxRetries }).result with
  | ok v => exact key _ (by simp; omega) rfl
  | error le => exact key _ (by simp; omega) rfl

/-- Folding `execute` calls: the completed-request count grows by the
number of calls and the average times the count equals the sum of the
elapsed samples. -/
theorem runExecs_avg (events : List ((Nat → Except RawError ℚ) × ℚ)) :
    ∀ (c : ClientState), c.disposed = false →
    (runExecs c events).disposed = false ∧
    (runExecs c events).metricsData.successfulRequests
        + (runExecs c events).metricsData.failedRequests
      = c.metricsData.successfulRequests + c.metricsData.failedRequests + events.length ∧
    (runExecs c events).metricsData.averageResponseTime
        * ((c.metricsData.successfulRequests + c.metricsData.failedRequests
            + events.length : Nat) : ℚ)
      = c.metricsData.averageResponseTime
          * ((c.metricsData.successfulRequests + c.metricsData.failedRequests : Nat) : ℚ)
        + (events.map Prod.snd).sum := by
  induction events with
  | nil =>
    intro c hd
    refine ⟨hd, by simp [runExecs], by simp [runExecs]⟩
  | cons p rest ih =>
    intro c hd
    have hstep := execute_avg_step c p.1 p.2 hd
    have hdisp : (AlchemystClient.execute c p.1 p.2).2.disposed = false := by
      rw [execute_disposed_eq, hd]
    obtain ⟨ih1, ih2, ih3⟩ := ih (AlchemystClient.execute c p.1 p.2).2 hdisp
    have hlist : runExecs c (p :: rest)
        = runExecs (AlchemystClient.execute c p.1 p.2).2 rest := rfl
    rw [hlist]
    refine ⟨ih1, ?_, ?_⟩
    · rw [ih2, hstep.1]
      simp only [List.length_cons]
      omega
    · have e2 : (AlchemystClient.execute c p.1 p.2).2.metricsData.successfulRequests
          + (AlchemystClient.execute c p.1 p.2).2.metricsData.failedRequests + rest.length
        = c.metricsData.successfulRequests + c.metricsData.failedRequests
          + (p :: rest).length := by
        rw [hstep.1]
        simp only [List.length_cons]
        omega
      rw [e2] at ih3
      rw [ih3]
      have hc : (((AlchemystClient.execute c p.1 p.2).2.metricsData.successfulRequests
            + (AlchemystClient.execute c p.1 p.2).2.metricsData.failedRequests : Nat) : ℚ)
          = ((c.metricsData.successfulRequests + c.metricsData.failedRequests + 1 : Nat)
            : ℚ) := by
        rw [hstep.1]
      rw [hc, hstep.2]
      simp only [List.map_cons, List.sum_cons]
      ring

/-- C9: for every sequence of completed requests with elapsed latencies
d1..dn (successful or failed), the `averageResponseTime` after the last
completion equals the arithmetic mean (d1+...+dn)/n; applied to every
prefix this gives the mean after each completion. -/
theorem c9_running_average (mr ttlS : Nat) (st : ℚ)
    (events : List ((Nat → Except RawError ℚ) × ℚ)) (hne : events ≠ []) :
    (runExecs (mkClient mr ttlS st) events).metricsData.averageResponseTime
      = (events.map Prod.snd).sum / ((events.length : Nat) : ℚ) := by
  obtain ⟨-, -, h3⟩ := runExecs_avg events (mkClient mr ttlS st) rfl
  have hlen : ((events.length : Nat) : ℚ) ≠ 0 := by
    have : events.length ≠ 0 := by
      cases events with
      | nil => exact absurd rfl hne
      | cons a l => simp
    exact_mod_cast this
  rw [eq_div_iff hlen]
  simpa [mkClient, initialMetrics] using h3

/-- C9 witness: latencies 10, 20, 30 on successful operations; the final
average equals the mean of the three samples. -/
theorem c9_witness :
    ([((fun _ => Except.ok 0), 10), ((fun _ => Except.ok 0), 20),
        ((fun _ => Except.ok 0), 30)]
      : List ((Nat → Except RawError ℚ) × ℚ)) ≠ [] ∧
    (runExecs (mkClient 3 300 0)
        [((fun _ => Except.ok 0), 10), ((fun _ => Except.ok 0), 20),
          ((fun _ => Except.ok 0), 30)]).metricsData.averageResponseTime
      = (([((fun _ => Except.ok 0), 10), ((fun _ => Except.ok 0), 20),
            ((fun _ => Except.ok 0), 30)]
          : List ((Nat → Except RawError ℚ) × ℚ)).map Prod.snd).sum
        / ((([((fun _ => Except.ok 0), 10), ((fun _ => Except.ok 0), 20),
            ((fun _ => Except.ok 0), 30)]
          : List ((Nat → Except RawError ℚ) × ℚ)).length : Nat) : ℚ) := by
  constructor
  · simp
  · exact c9_running_average 3 300 0 _ (by simp)

/- ------------------------------------------------------------------
   Claim C8: FIFO eviction of the first-inserted key.
   ------------------------------------------------------------------ -/

/-- If every entry carries the current timestamp, `cleanup` removes
nothing (`now - timestamp = 0` is never above the TTL). -/
theorem cleanup_id_of_fresh {V : Type} (t : Nat) (c : LRUCache V)
    (h : ∀ p ∈ c.cache, p.2.timestamp = t) : c.cleanup t = c := by
  unfold LRUCache.cleanup
  have hf : c.cache.filter (fun p => !(decide (t - p.2.timestamp > c.ttl))) = c.cache := by
    apply List.filter_eq_self.mpr
    intro p hp
    rw [h p hp]
    simp
  rw [hf]

theorem mapSet_append_of_not_mem {V : Type} (k : String) (e : CacheEntry V)
    (l : List (String × CacheEntry V)) (h : ∀ p ∈ l, p.1 ≠ k) :
    mapSet k e l = l ++ [(k, e)] := by
  induction l with
  | nil => rfl
  | cons p rest ih =>
    have hp : p.1 ≠ k := h p (by simp)
    simp only [mapSet, if_neg hp, List.cons_append, List.cons.injEq, true_and]
    exact ih (fun q hq => h q (by simp [hq]))

/-- A `set` of a fresh key on a fresh-stamped cache with spare room
appends the new entry and changes nothing else. -/
theorem set_fresh_append {V : Type} (t : Nat) (k : String) (v : V) (c : LRUCache V)
    (hts : ∀ p ∈ c.cache, p.2.timestamp = t)
    (hfresh : ∀ p ∈ c.cache, p.1 ≠ k)
    (hroom : c.cache.length < c.maxSize) :
    c.set t k v = { c with cache := c.cache ++ [(k, ⟨v, t, 0⟩)] } := by
  unfold LRUCache.set
  rw [cleanup_id_of_fresh t c hts]
  have hcap : ¬ (c.cache.length ≥ c.maxSize) := by omega
  simp only [hcap, if_false]
  rw [mapSet_append_of_not_mem k _ c.cache hfresh]

/-- A `set` of a fresh key on a full fresh-stamped cache whose head key
is truthy (non-empty) evicts exactly the head entry, counts one
eviction, and appends the new entry. -/
theorem set_at_capacity {V : Type} (t : Nat) (k : String) (v : V) (c : LRUCache V)
    (p0 : String × CacheEntry V) (rest : List (String × CacheEntry V))
    (hts : ∀ p ∈ c.cache, p.2.timestamp = t)
    (hc : c.cache = p0 :: rest)
    (hcap : c.cache.length ≥ c.maxSize)
    (hp0 : p0.1 ≠ "")
    (hhead : ∀ q ∈ rest, q.1 ≠ p0.1)
    (hfresh : ∀ q ∈ c.cache, q.1 ≠ k) :
    c.set t k v = { c with cache := rest ++ [(k, ⟨v, t, 0⟩)],
                           statsEvictions := c.statsEvictions + 1 } := by
  unfold LRUCache.set
  rw [cleanup_id_of_fresh t c hts]
  have hcap2 : (p0 :: rest).length ≥ c.maxSize := by rw [← hc]; exact hcap
  have hfilter : (p0 :: rest).filter (fun q => !(q.1 == p0.1)) = rest := by
    have h0 : (!(p0.1 == p0.1)) = false := by simp
    simp only [List.filter, h0]
    apply List.filter_eq_self.mpr
    intro q hq
    simp [hhead q hq]
  have hfresh2 : ∀ q ∈ rest, q.1 ≠ k := by
    intro q hq
    exact hfresh q (by rw [hc]; exact List.mem_cons_of_mem _ hq)
  simp only [hc, hfilter, hcap2, if_true, if_neg hp0]
  rw [mapSet_append_of_not_mem k _ rest hfresh2]

/-- Filling a fresh-stamped cache with distinct fresh keys within
capacity appends them in order and changes no stats. -/
theorem foldl_set_fresh {V : Type} (t : Nat) (v : V) :
    ∀ (ks : List String) (c : LRUCache V),
    (∀ p ∈ c.cache, p.2.timestamp = t) →
    (∀ k ∈ ks, ∀ p ∈ c.cache, p.1 ≠ k) →
    ks.Nodup →
    c.cache.length + ks.length ≤ c.maxSize →
    ks.foldl (fun acc k => acc.set t k v) c
      = { c with cache := c.cache ++ ks.map (fun k => (k, ⟨v, t, 0⟩)) } := by
  intro ks
  induction ks with
  | nil =>
    intro c _ _ _ _
    simp
  | cons k ktail ih =>
    intro c hts hfresh hnd hlen
    have hset : c.set t k v = { c with cache := c.cache ++ [(k, ⟨v, t, 0⟩)] } :=
      set_fresh_append t k v c hts (hfresh k (by simp))
        (by simp only [List.length_cons] at hlen; omega)
    have hstep : (k :: ktail).foldl (fun acc k => acc.set t k v) c
        = ktail.foldl (fun acc k => acc.set t k v) (c.set t k v) := rfl
    rw [hstep, hset]
    have hts2 : ∀ p ∈ c.cache ++ [(k, (⟨v, t, 0⟩ : CacheEntry V))], p.2.timestamp = t := by
      intro p hp
      rcases List.mem_append.mp hp with h | h
      · exact hts p h
      · simp only [List.mem_singleton] at h
        rw [h]
    have hfresh2 : ∀ k2 ∈ ktail, ∀ p ∈ c.cache ++ [(k, (⟨v, t, 0⟩ : CacheEntry V))],
        p.1 ≠ k2 := by
      intro k2 hk2 p hp
      rcases List.mem_append.mp hp with h | h
      · exact hfresh k2 (by simp [hk2]) p h
      · simp only [List.mem_singleton] at h
        rw [h]
        simp only []
        intro heq
        rw [heq] at hnd
        exact (List.nodup_cons.mp hnd).1 hk2
    have hr := ih ({ c with cache := c.cache ++ [(k, ⟨v, t, 0⟩)] }) hts2 hfresh2
      (List.nodup_cons.mp hnd).2
      (by simp at hlen ⊢; omega)
    rw [hr]
    simp [List.append_assoc]

theorem find?_map_key_none {V : Type} (k : String) (e : CacheEntry V)
    (l : List String) (h : k ∉ l) :
    (l.map (fun x => (x, e))).find? (fun p => p.1 == k) = none := by
  induction l with
  | nil => rfl
  | cons x xs ih =>
    have hx : x ≠ k := fun hxk => h (by rw [hxk]; simp)
    simp only [List.map_cons, List.find?_cons]
    have hbeq : ((x, e).1 == k) = false := by
      simp [hx]
    rw [hbeq]
    exact ih (fun hk => h (List.mem_cons_of_mem _ hk))

theorem find?_map_key_mem {V : Type} (k : String) (e : CacheEntry V)
    (l : List String) (h : k ∈ l) :
    (l.map (fun x => (x, e))).find? (fun p => p.1 == k) = some (k, e) := by
  induction l with
  | nil => simp at h
  | cons x xs ih =>
    by_cases hx : x = k
    · simp only [List.map_cons, List.find?_cons]
      have hbeq : ((x, e).1 == k) = true := by simp [hx]
      rw [hbeq, hx]
    · simp only [List.map_cons, List.find?_cons]
      have hbeq : ((x, e).1 == k) = false := by simp [hx]
      rw [hbeq]
      exact ih (by rcases List.mem_cons.mp h with h1 | h1
                   · exact absurd h1.symm hx
                   · exact h1)

theorem get_none_of_find_none {V : Type} (t : Nat) (k : String) (c : LRUCache V)
    (h : c.cache.find? (fun p => p.1 == k) = none) :
    (LRUCache.get t k c).1 = none := by
  unfold LRUCache.get
  rw [h]

theorem get_some_of_find_fresh {V : Type} (t : Nat) (k : String) (v : V)
    (c : LRUCache V)
    (h : c.cache.find? (fun p => p.1 == k) = some (k, ⟨v, t, 0⟩)) :
    (LRUCache.get t k c).1 = some v := by
  unfold LRUCache.get
  rw [h]
  simp

/-- Insert a sequence of keys (all with the same value and clock) into a
fresh cache of the given capacity. -/
def insertSeq (ks : List String) (n ttlS t : Nat) (v : ℚ) : LRUCache ℚ :=
  ks.foldl (fun acc k2 => acc.set t k2 v) (LRUCache.init ℚ n ttlS)

/-- C8 counterexample: with `maxSize = 1`, inserting the two distinct
keys `""` and `"b"` (both within TTL) performs no eviction at all: the
first key is the empty string, which is falsy under the `if (firstKey)`
guard, so the eviction counter stays 0, the first-inserted key is still
retrievable, and the cache holds 2 entries — contradicting the claimed
single FIFO eviction. -/
theorem c8_counterexample :
    (insertSeq ["", "b"] 1 5 0 1).statsEvictions = 0 ∧
    ((insertSeq ["", "b"] 1 5 0 1).get 0 "").1 = some 1 ∧
    (insertSeq ["", "b"] 1 5 0 1).cache.length = 2 :=
  ⟨rfl, rfl, rfl⟩

/-- C8 (amended): with `maxSize = N >= 1` (here `N = mid.length + 1`),
inserting N+1 distinct keys within their TTL, the first of which is not
the empty string, causes exactly one eviction that removes exactly the
first-inserted key: the eviction counter is 1, the first key misses,
and the remaining N keys are still retrievable.  (With first key `""`
the truthiness guard skips eviction entirely; see the counterexample.) -/
theorem c8_fifo_eviction (k0 : String) (mid : List String) (kl : String)
    (t ttlS : Nat) (v : ℚ) (hk0ne : k0 ≠ "")
    (hnd : (k0 :: (mid ++ [kl])).Nodup) :
    (insertSeq ((k0 :: mid) ++ [kl]) (mid.length + 1) ttlS t v).statsEvictions = 1 ∧
    ((insertSeq ((k0 :: mid) ++ [kl]) (mid.length + 1) ttlS t v).get t k0).1 = none ∧
    ∀ k2 ∈ mid ++ [kl],
      ((insertSeq ((k0 :: mid) ++ [kl]) (mid.length + 1) ttlS t v).get t k2).1
        = some v := by
  have hk0 : k0 ∉ mid ++ [kl] := (List.nodup_cons.mp hnd).1
  have hnd2 : (mid ++ [kl]).Nodup := (List.nodup_cons.mp hnd).2
  have hk0mid : k0 ∉ mid := fun h => hk0 (List.mem_append_left _ h)
  have hk0kl : k0 ≠ kl := fun h => hk0 (by rw [h]; exact List.mem_append_right _ (by simp))
  rw [List.nodup_append] at hnd2
  obtain ⟨hndmid, -, hdisj⟩ := hnd2
  have hklmid : kl ∉ mid := fun h => hdisj h (by simp)
  have hnod1 : (k0 :: mid).Nodup := List.nodup_cons.mpr ⟨hk0mid, hndmid⟩
  have hfill := foldl_set_fresh t v (k0 :: mid) (LRUCache.init ℚ (mid.length + 1) ttlS)
    (by intro p hp; simp [LRUCache.init] at hp)
    (by intro k2 hk2 p hp; simp [LRUCache.init] at hp)
    hnod1
    (by simp [LRUCache.init])
  have hc1 : (k0 :: mid).foldl (fun acc k2 => acc.set t k2 v)
      (LRUCache.init ℚ (mid.length + 1) ttlS)
      = (⟨(k0 :: mid).map (fun x => (x, ⟨v, t, 0⟩)), mid.length + 1, ttlS * 1000,
          0, 0, 0⟩ : LRUCache ℚ) := by
    rw [hfill]
    simp [LRUCache.init]
  have hmain : insertSeq ((k0 :: mid) ++ [kl]) (mid.length + 1) ttlS t v
      = (⟨(mid ++ [kl]).map (fun x => (x, ⟨v, t, 0⟩)), mid.length + 1, ttlS * 1000,
          0, 0, 1⟩ : LRUCache ℚ) := by
    unfold insertSeq
    rw [List.foldl_append, hc1]
    have hevict := set_at_capacity t kl v
      (⟨(k0 :: mid).map (fun x => (x, ⟨v, t, 0⟩)), mid.length + 1, ttlS * 1000,
        0, 0, 0⟩ : LRUCache ℚ)
      (k0, ⟨v, t, 0⟩) (mid.map (fun x => (x, ⟨v, t, 0⟩)))
      (by intro p hp
          simp only [List.mem_map] at hp
          obtain ⟨x, -, h⟩ := hp
          rw [← h])
      (by simp)
      (by simp)
      hk0ne
      (by intro q hq
          simp only [List.mem_map] at hq
          obtain ⟨x, hx, h⟩ := hq
          rw [← h]
          show x ≠ k0
          exact fun heq => hk0mid (heq ▸ hx))
      (by intro q hq
          simp only [List.mem_map, List.mem_cons] at hq
          obtain ⟨x, hx, h⟩ := hq
          rw [← h]
          show x ≠ kl
          rcases hx with h1 | h1
          · rw [h1]
            exact fun heq => hk0kl heq
          · exact fun heq => hklmid (heq ▸ h1))
    rw [show ([kl].foldl (fun acc k2 => acc.set t k2 v)
        (⟨(k0 :: mid).map (fun x => (x, ⟨v, t, 0⟩)), mid.length + 1, ttlS * 1000,
          0, 0, 0⟩ : LRUCache ℚ))
      = (⟨(k0 :: mid).map (fun x => (x, ⟨v, t, 0⟩)), mid.length + 1, ttlS * 1000,
          0, 0, 0⟩ : LRUCache ℚ).set t kl v from rfl]
    rw [hevict]
    simp
  refine ⟨by rw [hmain], ?_, ?_⟩
  · rw [hmain]
    exact get_none_of_find_none t k0 _ (find?_map_key_none k0 _ (mid ++ [kl]) hk0)
  · intro k2 hk2
    rw [hmain]
    exact get_some_of_find_fresh t k2 v _ (find?_map_key_mem k2 _ (mid ++ [kl]) hk2)

/-- C8 witness: three distinct non-empty keys into a capacity-2 cache:
one eviction, the first key gone, the two others retrievable. -/
theorem c8_witness :
    ("a" : String) ≠ "" ∧
    ("a" :: (["b"] ++ ["c"])).Nodup ∧
    (insertSeq (("a" :: ["b"]) ++ ["c"]) (["b"].length + 1) 1 0 1).statsEvictions = 1 ∧
    ((insertSeq (("a" :: ["b"]) ++ ["c"]) (["b"].length + 1) 1 0 1).get 0 "a").1 = none ∧
    ((insertSeq (("a" :: ["b"]) ++ ["c"]) (["b"].length + 1) 1 0 1).get 0 "b").1 = some 1 ∧
    ((insertSeq (("a" :: ["b"]) ++ ["c"]) (["b"].length + 1) 1 0 1).get 0 "c").1 = some 1 := by
  have h := c8_fifo_eviction "a" ["b"] "c" 0 1 1 (by decide) (by decide)
  exact ⟨by decide, by decide, h.1, h.2.1, h.2.2 "b" (by simp), h.2.2 "c" (by simp)⟩
